import Mathlib

/-!
Verification model of the gen-changelog core (commit classification,
sectioning, tag resolution and markdown rendering), shallowly embedded from
the Rust sources under `src/`.  The regular expressions of the source are
modelled by executable matchers that follow the leftmost-first, greedy
backtracking semantics of the `regex` crate on the concrete patterns used.
-/

namespace GenChangelog

/-- Characters matched by the regex metacharacter `.` (any character except
a newline; the crate is not in multi-line mode). -/
def isDotChar (c : Char) : Bool := c ≠ '\n'

/-- Characters matched by `\s` (whitespace); the ASCII whitespace set, which
is what commit summaries contain. -/
def isWsChar (c : Char) : Bool :=
  c = ' ' ∨ c = '\t' ∨ c = '\n' ∨ c = '\r' ∨ c = Char.ofNat 11 ∨ c = Char.ofNat 12

/-- Characters matched by `[a-z]`. -/
def isLowerAlpha (c : Char) : Bool := 'a' ≤ c ∧ c ≤ 'z'

/-- Characters matched by `\d`. -/
def isDigitChar (c : Char) : Bool := '0' ≤ c ∧ c ≤ '9'

/-- Characters matched by `\w` (word characters, ASCII). -/
def isWordChar (c : Char) : Bool :=
  isLowerAlpha c ∨ ('A' ≤ c ∧ c ≤ 'Z') ∨ isDigitChar c ∨ c = '_'

/-- All decompositions `cs = content ++ [sep] ++ rest` whose separator
satisfies `p`, ordered by increasing content length (leftmost separator
first). -/
def splitsAt (p : Char → Bool) : List Char → List (List Char × Char × List Char)
  | [] => []
  | c :: rest =>
    let tail := (splitsAt p rest).map (fun t => (c :: t.1, t.2.1, t.2.2))
    if p c then ([], c, rest) :: tail else tail

/-- First success of a list of alternatives (backtracking order). -/
def firstSome (l : List (Option α)) : Option α := (l.filterMap id).head?

/-! ## Commit classifier (`src/src/change_log/section/cc_commit.rs`)

The `CONVENTIONAL` pattern of the source is
`^(?P<emoji>.+\s)?(?P<type>[a-z]+)(?:\((?P<scope>.+)\))?(?P<breaking>!)?: (?P<description>.*)$$`.
It is anchored at both ends, so a match always spans the whole summary.
The matcher below reproduces the crate's leftmost-first semantics: optional
groups prefer to participate, `+` quantifiers are greedy and backtrack from
the longest candidate downwards. -/

/-- `(?P<description>.*)$$` — the remainder must consist of `.`-chars only. -/
def tryDesc (cs : List Char) : Option String :=
  if cs.all isDotChar then some (String.mk cs) else none

/-- The literal `: ` separator followed by the description. -/
def tryColon : List Char → Option String
  | ':' :: ' ' :: rest => tryDesc rest
  | _ => none

/-- `(?P<breaking>!)?: (description)` — the optional bang prefers to match. -/
def tryBangColon (cs : List Char) : Option (Bool × String) :=
  match cs with
  | '!' :: rest =>
    match tryColon rest with
    | some d => some (true, d)
    | none => (tryColon ('!' :: rest)).map (fun d => (false, d))
  | _ => (tryColon cs).map (fun d => (false, d))

/-- `(?:\((?P<scope>…)\))?(!)?: (description)` — the optional scope group
prefers to match, and the greedy quantifier inside it backtracks from the
rightmost closing parenthesis.  The character class of the scope is the
parameter `scopeOk` (the source pattern uses `.+`). -/
def tryScopeWith (scopeOk : Char → Bool) (cs : List Char) :
    Option (Option String × Bool × String) :=
  match cs with
  | '(' :: rest =>
    let cands := (splitsAt (fun c => c = ')') rest).reverse
    let viaScope := firstSome (cands.map (fun t =>
      if t.1 ≠ [] ∧ t.1.all scopeOk then
        (tryBangColon t.2.2).map (fun r => (some (String.mk t.1), r.1, r.2))
      else none))
    match viaScope with
    | some r => some r
    | none => (tryBangColon ('(' :: rest)).map (fun r => ((none : Option String), r.1, r.2))
  | _ => (tryBangColon cs).map (fun r => ((none : Option String), r.1, r.2))

/-- `(?P<type>[a-z]+)` with backtracking: the reversed candidate run is
shrunk from the right until the rest of the pattern matches. -/
def tryTypeRev (scopeOk : Char → Bool) :
    List Char → List Char → Option (String × Option String × Bool × String)
  | [], _ => none
  | c :: revPre, rest =>
    match tryScopeWith scopeOk rest with
    | some r => some (String.mk (c :: revPre).reverse, r)
    | none => tryTypeRev scopeOk revPre (c :: rest)

/-- Match `(type)(scope)?(!)?: (description)` at the head of `cs`. -/
def tryType (scopeOk : Char → Bool) (cs : List Char) :
    Option (String × Option String × Bool × String) :=
  tryTypeRev scopeOk (cs.takeWhile isLowerAlpha).reverse (cs.dropWhile isLowerAlpha)

/-- Whole-pattern match: the optional `(?P<emoji>.+\s)?` prefix prefers to
match and is greedy, so whitespace split points are tried from the right.
Returns `(emoji?, type, scope?, breaking, description)`. -/
def convMatchWith (scopeOk : Char → Bool) (cs : List Char) :
    Option (Option String × String × Option String × Bool × String) :=
  let emojiCands := (splitsAt isWsChar cs).reverse
  let viaEmoji := firstSome (emojiCands.map (fun t =>
    if t.1 ≠ [] ∧ t.1.all isDotChar then
      (tryType scopeOk t.2.2).map (fun r => (some (String.mk (t.1 ++ [t.2.1])), r))
    else none))
  match viaEmoji with
  | some r => some r
  | none => (tryType scopeOk cs).map (fun r => ((none : Option String), r))

/-- The source pattern: its scope class is `.+` (any non-newline characters,
a closing parenthesis included). -/
def convMatchCore (cs : List Char) :
    Option (Option String × String × Option String × Bool × String) :=
  convMatchWith isDotChar cs

/-- The capture groups of a successful `CONVENTIONAL` match, as exposed by
`captures.name(..)` in the source (`None` = group did not participate). -/
structure ConvCaps where
  emoji : Option String
  type : Option String
  scope : Option String
  breaking : Bool
  description : Option String
  deriving DecidableEq, Repr

/-- `CONVENTIONAL.captures(title)`.  The `type` and `description` groups are
unconditional in the pattern, hence filled on every match. -/
def conventionalCaptures (title : String) : Option ConvCaps :=
  (convMatchCore title.toList).map (fun r =>
    { emoji := r.1, type := some r.2.1, scope := r.2.2.1,
      breaking := r.2.2.2.1, description := some r.2.2.2.2 })

/-- The classified conventional commit record (`ConvCommit` in the source). -/
structure ConvCommit where
  title : String
  emoji : Option String
  kind : Option String
  scope : Option String
  breaking : Bool
  body : String
  deriving DecidableEq, Repr

/-- `ConvCommit::default()`. -/
def ConvCommit.empty : ConvCommit :=
  { title := "", emoji := none, kind := none, scope := none,
    breaking := false, body := "" }

instance : Inhabited ConvCommit := ⟨ConvCommit.empty⟩

/-- `ConvCommit::parse`, with the source's `.unwrap()` on the description
capture modelled as a fallible step (`none` = the unwrap would panic). -/
def ConvCommit.parseChecked (title : String) : Option ConvCommit :=
  match conventionalCaptures title with
  | some caps =>
    match caps.description with
    | some d =>
      some { title := d, emoji := caps.emoji, kind := caps.type,
             scope := caps.scope, breaking := caps.breaking, body := "" }
    | none => none
  | none =>
    some { title := title, emoji := none, kind := none, scope := none,
           breaking := false, body := "" }

/-- `ConvCommit::parse` (total form; justified by `parseChecked_eq_some`). -/
def ConvCommit.parse (title : String) : ConvCommit :=
  (ConvCommit.parseChecked title).getD ConvCommit.empty

/-- `ConvCommit::new(title, body)`. -/
def ConvCommit.new (title : Option String) (body : Option String) : ConvCommit :=
  let cc := match title with
    | some t => ConvCommit.parse t
    | none => ConvCommit.empty
  match body with
  | some b => { cc with body := b }
  | none => cc

/-- `ConvCommit::kind_string`. -/
def ConvCommit.kindString (c : ConvCommit) : String := c.kind.getD ""

/-- `ConvCommit::title_as_string`. -/
def ConvCommit.titleAsString (c : ConvCommit) : String :=
  (c.emoji.getD "") ++ (c.kind.getD "")
    ++ (match c.scope with | some s => "(" ++ s ++ ")" | none => "")
    ++ (if c.breaking then "!" else "") ++ ": " ++ c.title

/-! ### Spec-side grammar (for the refinement claim C4 only)

Modelled from the spec's words, not from the source: the claimed grammar
`^(emoji\s)?(type)(\(scope\))?(!)?: (description)$` in which "scope is an
arbitrary non-empty run of characters excluding `)`". -/

/-- The spec's grammar for a commit summary: identical shape, but the scope
class excludes the closing parenthesis. -/
def specConvMatch (cs : List Char) :
    Option (Option String × String × Option String × Bool × String) :=
  convMatchWith (fun c => c ≠ ')') cs

/-- Classification of a summary under the spec's grammar: on a match the
kind is the captured type, otherwise the kind is absent and the title is
the verbatim summary. -/
def specClassifyKind (title : String) : Option String :=
  match specConvMatch title.toList with
  | some r => some r.2.1
  | none => none

/-! ## Changelog classes (`src/src/change_log/section/change_log_class.rs`) -/

inductive ChangeLogClass where
  | Added | Fixed | Changed | Security | Build | Documentation | Chore
  | CI | Test | Deprecated | Removed | Misc | Unclassified
  deriving DecidableEq, Repr

/-- ASCII lowercasing, as `str::to_lowercase` acts on the ASCII kinds the
classifier can produce (`[a-z]+` captures or the empty default). -/
def asciiLower (s : String) : String := String.mk (s.toList.map Char.toLower)

/-- `ChangeLogClass::new`. -/
def ChangeLogClass.new (kind : String) : ChangeLogClass :=
  match asciiLower kind with
  | "feat" => .Added
  | "fix" => .Fixed
  | "refactor" => .Changed
  | "security" => .Security
  | "dependency" => .Security
  | "build" => .Build
  | "doc" => .Documentation
  | "docs" => .Documentation
  | "chore" => .Chore
  | "ci" => .CI
  | "test" => .Test
  | "deprecated" => .Deprecated
  | "removed" => .Removed
  | "misc" => .Misc
  | _ => .Unclassified

/-- `Display for ChangeLogClass`. -/
def ChangeLogClass.display : ChangeLogClass → String
  | .Added => "Added"
  | .Build => "Build Changes"
  | .CI => "CI Changes"
  | .Changed => "Changed"
  | .Fixed => "Fixed"
  | .Security => "Security Changes"
  | .Documentation => "Documentation Changes"
  | .Chore => "Chore Changes"
  | .Test => "Test Changes"
  | .Deprecated => "Deprecated"
  | .Removed => "Removed"
  | .Misc => "Miscellaneous"
  | .Unclassified => "Unknown"

/-! ## Semantic versions

The source delegates version parsing and ordering to the third-party
`semver` crate (not part of this repository).  Modelled from the spec:
"Semantic version parsing follows SemVer 2.0 grammar (major.minor.patch,
optional `-prerelease`, optional `+build`)" and ordering is "standard
SemVer ordering, pre-release < release" (build metadata does not affect
precedence). -/

/-- A pre-release identifier: numeric identifiers order below and among
themselves numerically, alphanumeric ones lexically in ASCII order. -/
inductive PreId where
  | num (n : Nat)
  | alpha (s : String)
  deriving DecidableEq, Repr

/-- A parsed semantic version. -/
structure Version where
  major : Nat
  minor : Nat
  patch : Nat
  pre : List PreId
  build : String
  deriving DecidableEq, Repr

def Version.zero : Version := { major := 0, minor := 0, patch := 0, pre := [], build := "" }

instance : Inhabited Version := ⟨Version.zero⟩

/-- Embedding of a pre-release identifier into a linear order: numeric
before alphanumeric, numerics by value, alphanumerics by ASCII order. -/
def PreId.key : PreId → ℕ ⊕ₗ String
  | .num n => toLex (Sum.inl n)
  | .alpha s => toLex (Sum.inr s)

/-- Pre-release component of the precedence key: an empty pre-release list
(an ordinary release) is above every pre-release, and pre-release lists
compare lexicographically with a shorter prefix first. -/
def preKey (l : List PreId) : WithTop (List (ℕ ⊕ₗ String)) :=
  match l with
  | [] => ⊤
  | _ => (l.map PreId.key : List (ℕ ⊕ₗ String))

/-- SemVer precedence as an order embedding: major, then minor, then patch,
then the pre-release component; build metadata is ignored. -/
def versionKey (v : Version) : ℕ ×ₗ (ℕ ×ₗ (ℕ ×ₗ WithTop (List (ℕ ⊕ₗ String)))) :=
  toLex (v.major, toLex (v.minor, toLex (v.patch, preKey v.pre)))

/-- `v` precedes or equals `w` in SemVer precedence. -/
def precLE (v w : Version) : Prop := versionKey v ≤ versionKey w

/-- `v` strictly precedes `w` in SemVer precedence. -/
def precLT (v w : Version) : Prop := versionKey v < versionKey w

instance : DecidableRel precLE := fun v w => inferInstanceAs (Decidable (_ ≤ _))

instance : DecidableRel precLT := fun v w => inferInstanceAs (Decidable (_ < _))

/-- Characters allowed in SemVer pre-release and build identifiers. -/
def isIdentChar (c : Char) : Bool :=
  isDigitChar c ∨ isLowerAlpha c ∨ ('A' ≤ c ∧ c ≤ 'Z') ∨ c = '-'

/-- Numeric value of a digit run. -/
def natOfDigits (cs : List Char) : Nat :=
  cs.foldl (fun acc c => acc * 10 + (c.toNat - 48)) 0

/-- A numeric SemVer field: a non-empty digit run without leading zeros. -/
def parseNumStrict (cs : List Char) : Option (Nat × List Char) :=
  let run := cs.takeWhile isDigitChar
  let rest := cs.dropWhile isDigitChar
  if run = [] then none
  else if 1 < run.length ∧ run.head? = some '0' then none
  else some (natOfDigits run, rest)

def expectDot : List Char → Option (List Char)
  | '.' :: r => some r
  | _ => none

/-- One dot-separated pre-release identifier: non-empty, made of identifier
characters; all-digit identifiers must not have leading zeros and are
numeric, the rest are alphanumeric. -/
def parsePreId (cs : List Char) : Option PreId :=
  if cs = [] then none
  else if ¬ cs.all isIdentChar then none
  else if cs.all isDigitChar then
    if 1 < cs.length ∧ cs.head? = some '0' then none
    else some (.num (natOfDigits cs))
  else some (.alpha (String.mk cs))

/-- The dot-separated pre-release identifier list. -/
def parsePre (cs : List Char) : Option (List PreId) :=
  (cs.splitOn '.').mapM parsePreId

/-- Build identifiers: non-empty, identifier characters (leading zeros are
allowed in build metadata). -/
def checkBuild (cs : List Char) : Bool :=
  (cs.splitOn '.').all (fun part => part ≠ [] ∧ part.all isIdentChar)

/-- `semver::Version::parse` on the captured version text. -/
def parseVersion (s : String) : Option Version := do
  let (maj, r1) ← parseNumStrict s.toList
  let r2 ← expectDot r1
  let (mnr, r3) ← parseNumStrict r2
  let r4 ← expectDot r3
  let (pat, r5) ← parseNumStrict r4
  match r5 with
  | [] => some { major := maj, minor := mnr, patch := pat, pre := [], build := "" }
  | '-' :: r6 =>
    let preChars := r6.takeWhile (fun c => c ≠ '+')
    let rest := r6.dropWhile (fun c => c ≠ '+')
    let pre ← parsePre preChars
    match rest with
    | [] => some { major := maj, minor := mnr, patch := pat, pre := pre, build := "" }
    | '+' :: b =>
      if checkBuild b then
        some { major := maj, minor := mnr, patch := pat, pre := pre, build := String.mk b }
      else none
    | _ => none
  | '+' :: b =>
    if checkBuild b then
      some { major := maj, minor := mnr, patch := pat, pre := [], build := String.mk b }
    else none
  | _ => none

/-! ## Tag resolution (`src/src/change_log/tag.rs`)

The `PREFIX` pattern of the source is
`(?P<prefix>\w+)(?P<semver>(?P<major>\d+)\.(?P<minor>\d+)\.(?P<patch>\d+)(?P<pre>-[a-z\.A-Z0-9]+)?(?P<build>\+[0-9A-Za-z-\.]+)?)`.
It is NOT anchored: `captures` finds the leftmost match anywhere in the
tag name, with the greedy `\w+` backtracking from the longest word run. -/

/-- Characters of the `pre` class `[a-z\.A-Z0-9]` of `PREFIX`. -/
def isPreChar (c : Char) : Bool :=
  isLowerAlpha c ∨ c = '.' ∨ ('A' ≤ c ∧ c ≤ 'Z') ∨ isDigitChar c

/-- Characters of the `build` class `[0-9A-Za-z-\.]` of `PREFIX`. -/
def isBuildChar (c : Char) : Bool :=
  isDigitChar c ∨ ('A' ≤ c ∧ c ≤ 'Z') ∨ isLowerAlpha c ∨ c = '-' ∨ c = '.'

/-- Match the `semver` group of `PREFIX` at the head of `cs`, returning the
captured text.  The optional pre/build groups are greedy. -/
def semverAt (cs : List Char) : Option (List Char) :=
  let d1 := cs.takeWhile isDigitChar
  if d1 = [] then none else
  match cs.dropWhile isDigitChar with
  | '.' :: r2 =>
    let d2 := r2.takeWhile isDigitChar
    if d2 = [] then none else
    (match r2.dropWhile isDigitChar with
    | '.' :: r3 =>
      let d3 := r3.takeWhile isDigitChar
      if d3 = [] then none else
      let r4 := r3.dropWhile isDigitChar
      let preRest : List Char × List Char :=
        match r4 with
        | '-' :: t =>
          let prun := t.takeWhile isPreChar
          if prun = [] then ([], r4) else ('-' :: prun, t.dropWhile isPreChar)
        | _ => ([], r4)
      let buildSeg : List Char :=
        match preRest.2 with
        | '+' :: t =>
          let brun := t.takeWhile isBuildChar
          if brun = [] then [] else '+' :: brun
        | _ => []
      some (d1 ++ '.' :: d2 ++ '.' :: d3 ++ preRest.1 ++ buildSeg)
    | _ => none)
  | _ => none

/-- `(?P<prefix>\w+)(?P<semver>…)` at a fixed start: the reversed word run
is shrunk from the right until the semver part matches. -/
def prefixMatchRev : List Char → List Char → Option (String × String)
  | [], _ => none
  | c :: revPre, rest =>
    match semverAt rest with
    | some sv => some (String.mk (c :: revPre).reverse, String.mk sv)
    | none => prefixMatchRev revPre (c :: rest)

/-- `PREFIX.captures(name)`: leftmost-first search over start positions,
returning the captured `(prefix, semver)` texts. -/
def prefixCaptures : List Char → Option (String × String)
  | [] => none
  | c :: rest =>
    match prefixMatchRev ((c :: rest).takeWhile isWordChar).reverse
        ((c :: rest).dropWhile isWordChar) with
    | some r => some r
    | none => prefixCaptures rest

/-- The `ReleasePattern::Prefix(p)` arm of `TagBuilder::get_semver` followed
by `set_semver`: the version is kept only when the captured prefix equals
`p` and the captured semver text parses. -/
def getSemverPrefix (name p : String) : Option Version :=
  match prefixCaptures name.toList with
  | none => none
  | some r => if r.1 = p then parseVersion r.2 else none

/-- A repository tag (`Tag` in the source).  The date is the tag commit's
timestamp fetched from the VCS collaborator; it plays no role in the
claims and is carried as an optional preformatted string. -/
structure Tag where
  id : Nat
  name : String
  package : Option String
  semver : Option Version
  date : Option String
  deriving DecidableEq, Repr

/-- `Tag::is_version_tag`. -/
def Tag.isVersionTag (t : Tag) : Bool := t.semver.isSome

/-- The sort key of `get_version_tags`: the tag's version (every retained
tag has one; the source unwraps it). -/
def Tag.versionD (t : Tag) : Version := t.semver.getD Version.zero

/-- The comparison used by `sort_by_key` on the version key. -/
def tagLE (t₁ t₂ : Tag) : Prop := precLE t₁.versionD t₂.versionD

instance : DecidableRel tagLE := fun t₁ t₂ => inferInstanceAs (Decidable (precLE _ _))

instance : IsTotal Tag tagLE := ⟨fun a b => le_total (versionKey a.versionD) (versionKey b.versionD)⟩

instance : IsTrans Tag tagLE := ⟨fun _ _ _ h₁ h₂ => le_trans h₁ h₂⟩

/-- `ChangeLogBuilder::get_version_tags`: build a tag for every repository
tag name, keep the version tags, sort ascending by version and reverse.
The input models the `(id, name)` pairs yielded by `tag_foreach`. -/
def getVersionTags (tags : List (Nat × String)) (p : String) : List Tag :=
  let all := tags.map (fun t =>
    { id := t.1, name := t.2, package := none,
      semver := getSemverPrefix t.2 p, date := none : Tag })
  let versionTags := all.filter (fun t => t.isVersionTag)
  (List.insertionSort tagLE versionTags).reverse

/-! ## Sections (`src/src/change_log/section.rs`)

The configured headings are a `BTreeMap<u8, String>` priority table; only
its value set is consulted by `commits_markdown` (via the `HeadingMgmt`
membership helper, whose snapshot is absent from `src/`; modelled from the
spec: "for each configured heading (in priority order) that has a
non-empty commit bucket").  We carry the heading names in priority order. -/

structure Section where
  tag : Option Tag
  headings : List String
  description : String
  yanked : Bool
  /-- the `commits` hashmap, keyed by the class display name -/
  commits : List (String × List ConvCommit)
  addedCommits : List ConvCommit
  fixedCommits : List ConvCommit
  changedCommits : List ConvCommit
  securityCommits : List ConvCommit
  buildCommits : List ConvCommit
  testCommits : List ConvCommit
  documentationCommits : List ConvCommit
  choreCommits : List ConvCommit
  ciCommits : List ConvCommit
  deprecatedCommits : List ConvCommit
  removedCommits : List ConvCommit
  miscCommits : List ConvCommit
  deriving DecidableEq, Repr

/-- `Section::new`. -/
def Section.new (tag : Option Tag) (headings : List String) : Section :=
  { tag := tag, headings := headings, description := "", yanked := false,
    commits := [], addedCommits := [], fixedCommits := [], changedCommits := [],
    securityCommits := [], buildCommits := [], testCommits := [],
    documentationCommits := [], choreCommits := [], ciCommits := [],
    deprecatedCommits := [], removedCommits := [], miscCommits := [] }

/-- Insert-or-replace into the commits map (`HashMap::insert`). -/
def mapInsert (m : List (String × List ConvCommit)) (key : String)
    (v : List ConvCommit) : List (String × List ConvCommit) :=
  match m with
  | [] => [(key, v)]
  | e :: rest => if e.1 = key then (key, v) :: rest else e :: mapInsert rest key v

/-- `HashMap::get` on the commits map. -/
def mapGet (m : List (String × List ConvCommit)) (key : String) :
    Option (List ConvCommit) :=
  (m.find? (fun e => e.1 = key)).map (fun e => e.2)

/-- `Section::add_commit_to_hashmap`. -/
def Section.addCommitToHashmap (s : Section) (class_ : String) (commit : ConvCommit) :
    Section :=
  let newValue := (mapGet s.commits class_).getD []
  { s with commits := mapInsert s.commits class_ (newValue ++ [commit]) }

/-- `Section::add_commit`: classify the summary and push the commit both
into the class-keyed hashmap and into exactly one of the typed buckets
(the `Unclassified` class shares the miscellaneous bucket). -/
def Section.addCommit (s : Section) (summary message : Option String) : Section :=
  let cc := ConvCommit.new summary message
  let class_ := ChangeLogClass.new cc.kindString
  let s := s.addCommitToHashmap class_.display cc
  match class_ with
  | .Added => { s with addedCommits := s.addedCommits ++ [cc] }
  | .Fixed => { s with fixedCommits := s.fixedCommits ++ [cc] }
  | .Changed => { s with changedCommits := s.changedCommits ++ [cc] }
  | .Security => { s with securityCommits := s.securityCommits ++ [cc] }
  | .Build => { s with buildCommits := s.buildCommits ++ [cc] }
  | .Test => { s with testCommits := s.testCommits ++ [cc] }
  | .Documentation => { s with documentationCommits := s.documentationCommits ++ [cc] }
  | .Chore => { s with choreCommits := s.choreCommits ++ [cc] }
  | .CI => { s with ciCommits := s.ciCommits ++ [cc] }
  | .Deprecated => { s with deprecatedCommits := s.deprecatedCommits ++ [cc] }
  | .Removed => { s with removedCommits := s.removedCommits ++ [cc] }
  | .Misc => { s with miscCommits := s.miscCommits ++ [cc] }
  | .Unclassified => { s with miscCommits := s.miscCommits ++ [cc] }

/-- One commit as yielded by the walk: its summary and body, either of
which may be absent. -/
abbrev RawCommit := Option String × Option String

/-- `Section::get_commits`: feed every commit of the walk into
`add_commit` when its summary is present; summary-less commits are
silently skipped. -/
def Section.getCommits (s : Section) (commits : List RawCommit) : Section :=
  commits.foldl (fun acc c => if c.1.isSome then acc.addCommit c.1 c.2 else acc) s

/-! ### Section rendering -/

/-- `Display for semver::Version` (third-party; standard SemVer text). -/
def PreId.text : PreId → String
  | .num n => toString n
  | .alpha s => s

def Version.text (v : Version) : String :=
  toString v.major ++ "." ++ toString v.minor ++ "." ++ toString v.patch
    ++ (match v.pre with
        | [] => ""
        | l => "-" ++ String.intercalate "." (l.map PreId.text))
    ++ (if v.build = "" then "" else "+" ++ v.build)

/-- The section header line shared by `Display for Section` and
`Section::section_markdown`. -/
def Section.headerLine (s : Section) : String :=
  match s.tag with
  | some t =>
    let version := match t.semver with
      | some v => v.text
      | none => "Unreleased"
    let date := match t.date with
      | some d => d
      | none => ""
    "## [" ++ version ++ "] - " ++ date
  | none => "## [Unreleased]"

/-- `Section::commits_markdown`. -/
def Section.commitsMarkdown (s : Section) (heading : String)
    (commits : List ConvCommit) : Option String :=
  if ¬ s.headings.contains heading ∨ commits.isEmpty then none
  else
    some ("### " ++ heading ++ "\n\n"
      ++ String.join (commits.map (fun c => " - " ++ c.titleAsString ++ "\n")) ++ "\n")

/-- The heading/bucket pairs rendered by `Display for Section`, in source
order.  Note that the build bucket is rendered under the `"Security"`
heading and that no pair uses a `"Build"` heading. -/
def Section.displayPieces (s : Section) : List (String × List ConvCommit) :=
  [("Added", s.addedCommits), ("Fixed", s.fixedCommits),
   ("Changed", s.changedCommits), ("Security", s.securityCommits),
   ("Security", s.buildCommits), ("Test", s.testCommits),
   ("Documentation", s.documentationCommits), ("Chore", s.choreCommits),
   ("Continuous Integration", s.ciCommits), ("Deprecated", s.deprecatedCommits),
   ("Removed", s.removedCommits), ("Miscellaneous", s.miscCommits)]

/-- `Display for Section`. -/
def Section.display (s : Section) : String :=
  "\n" ++ s.headerLine ++ "\n\n"
    ++ String.join (s.displayPieces.map (fun p => (s.commitsMarkdown p.1 p.2).getD ""))
    ++ "\n"

/-- The heading/bucket pairs of `Section::section_markdown` (the lowercase
variant), in source order; the build bucket again renders as
`"security"`. -/
def Section.markdownPieces (s : Section) : List (String × List ConvCommit) :=
  [("added", s.addedCommits), ("fixed", s.fixedCommits),
   ("changed", s.changedCommits), ("security", s.securityCommits),
   ("security", s.buildCommits), ("test", s.testCommits),
   ("documentation", s.documentationCommits), ("chore", s.choreCommits),
   ("ci", s.ciCommits), ("deprecated", s.deprecatedCommits),
   ("removed", s.removedCommits), ("misc", s.miscCommits)]

/-- `Section::section_markdown`. -/
def Section.sectionMarkdown (s : Section) : String :=
  s.headerLine ++ "\n\n"
    ++ String.join (s.markdownPieces.map (fun p => (s.commitsMarkdown p.1 p.2).getD ""))

/-! ## ChangeLog document (`src/src/change_log.rs`, `header.rs`, `link.rs`) -/

structure Header where
  title : String
  paragraphs : List String
  deriving DecidableEq, Repr

/-- `Display for Header`. -/
def Header.display (h : Header) : String :=
  "# " ++ h.title ++ "\n"
    ++ String.join (h.paragraphs.map (fun p => "\n" ++ p ++ "\n"))

/-- A reference link; the URL is carried as its serialized text (the source
stores a parsed `url::Url`). -/
structure Link where
  anchor : String
  url : String
  deriving DecidableEq, Repr

/-- `Display for Link`. -/
def Link.display (l : Link) : String := "[" ++ l.anchor ++ "] " ++ l.url ++ "\n"

structure ChangeLog where
  header : Header
  sections : List Section
  links : List Link
  deriving DecidableEq, Repr

/-- `Display for ChangeLog`. -/
def ChangeLog.display (cl : ChangeLog) : String :=
  cl.header.display ++ "\n"
    ++ String.join (cl.sections.map Section.display)
    ++ String.join (cl.links.map Link.display)
    ++ "\n"

/-! ## ChangeLog builder (`src/src/change_log.rs`)

`ChangeLogBuilder::with_repository` first extracts the remote details
(propagating their errors with `?`), then computes the section limit in
`u8` arithmetic, and walks one commit window per section.  The linear
commit history and the revwalk push/hide range semantics are the VCS
collaborator, modelled from the spec: "push the window's start point into
a reverse-chronological commit iterator; exclude (hide) the window's end
boundary so the iterator yields exactly the commits strictly between start
and end (start inclusive at the tip, end exclusive)".  The history is a
list of raw commits, newest first; a tag's `id` is the index of its
commit in that list. -/

inductive DisplaySections where
  | All
  | One
  | Custom (n : Nat)
  deriving DecidableEq, Repr

/-- The `section_limit` computation of `with_repository`: the section count
expression `(version_tags.len() + 1) as u8` truncates modulo 256 before
the `min` with `u8::MAX`. -/
def sectionLimit (ds : DisplaySections) (numTags : Nat) : Nat :=
  match ds with
  | .All => min ((numTags + 1) % 256) 255
  | .One => 1
  | .Custom n => min ((numTags + 1) % 256) n

/-- Window of `WalkSetup::NoReleases`: from HEAD to the start of history. -/
def windowAll (n : Nat) : List Nat := List.range n

/-- Window of `WalkSetup::HeadToRelease`: from HEAD down to, excluding, the
newest release tag's commit. -/
def windowHeadTo (p : Nat) : List Nat := List.range p

/-- Window of `WalkSetup::FromReleaseToRelease`: commits reachable from the
first tag's commit but not from the second tag's commit. -/
def windowBetween (pFrom pTo : Nat) : List Nat := List.range' pFrom (pTo - pFrom)

/-- Window of `WalkSetup::ReleaseToStart`: from the oldest walked release
tag's commit to the start of history. -/
def windowToStart (p n : Nat) : List Nat := List.range' p (n - p)

/-- The release-section loop of `with_repository`: at most `budget`
(= `section_limit - 1`) sections, one per remaining version tag, each
walking the window between the tag and the next older tag (or to the
start of history for the last tag). -/
def releasePlan : Nat → List Tag → Nat → List (Option Tag × List Nat)
  | 0, _, _ => []
  | _ + 1, [], _ => []
  | b + 1, t :: rest, n =>
    (some t,
      match rest with
      | q :: _ => windowBetween t.id q.id
      | [] => windowToStart t.id n)
    :: releasePlan b rest n

/-- The full walk plan of `with_repository`: with no version tags a single
untagged section walks the whole history; otherwise the untagged
Unreleased section is walked first (unconditionally) and then the
release-section loop runs under the section limit. -/
def walkPlan (ds : DisplaySections) (tags : List Tag) (n : Nat) :
    List (Option Tag × List Nat) :=
  match tags with
  | [] => [(none, windowAll n)]
  | t :: _ =>
    (none, windowHeadTo t.id) :: releasePlan (sectionLimit ds tags.length - 1) tags n

/-- The commits a window yields from the history. -/
def windowCommits (history : List RawCommit) (w : List Nat) : List RawCommit :=
  w.filterMap (fun i => history.get? i)

/-- Build one section from its walk window. -/
def sectionFromWindow (headings : List String) (tag : Option Tag)
    (history : List RawCommit) (w : List Nat) : Section :=
  (Section.new tag headings).getCommits (windowCommits history w)

/-- The sections produced by `with_repository` for a repository with the
given history and version tags. -/
def buildSections (headings : List String) (ds : DisplaySections)
    (history : List RawCommit) (tags : List Tag) : List Section :=
  (walkPlan ds tags history.length).map
    (fun pw => sectionFromWindow headings pw.1 history pw.2)

/-! ### Remote URL extraction (`REMOTE` and `get_remote_details`)

The `REMOTE` pattern is
`^((https://github\.com/)|(git@github.com:))(?P<owner>[a-zA-Z0-9](?:[a-zA-Z0-9-]{0,37}[a-zA-Z0-9])?)/(?P<repo>[a-zA-Z0-9_][a-zA-Z0-9_-]+[a-zA-Z0-9_])\.git$`,
anchored at both ends (the dot of the SSH alternative is unescaped and so
matches any character). -/

def isAlnumChar (c : Char) : Bool :=
  isDigitChar c ∨ ('A' ≤ c ∧ c ≤ 'Z') ∨ isLowerAlpha c

def isOwnerChar (c : Char) : Bool := isAlnumChar c ∨ c = '-'

def isRepoChar (c : Char) : Bool := isAlnumChar c ∨ c = '_' ∨ c = '-'

def isRepoEndChar (c : Char) : Bool := isAlnumChar c ∨ c = '_'

/-- The owner group: 1–39 characters of `[a-zA-Z0-9-]` with alphanumeric
first and last characters. -/
def ownerOk (cs : List Char) : Bool :=
  cs ≠ [] ∧ cs.length ≤ 39 ∧ cs.all isOwnerChar
    ∧ (cs.head?.getD ' ' |> isAlnumChar) ∧ (cs.getLast?.getD ' ' |> isAlnumChar)

/-- The repo group: at least 3 characters of `[a-zA-Z0-9_-]` with
`[a-zA-Z0-9_]` first and last characters. -/
def repoOk (cs : List Char) : Bool :=
  3 ≤ cs.length ∧ cs.all isRepoChar
    ∧ (cs.head?.getD ' ' |> isRepoEndChar) ∧ (cs.getLast?.getD ' ' |> isRepoEndChar)

/-- The SSH alternative `git@github.com:` (its dot unescaped). -/
def sshPrefix : List Char → Option (List Char)
  | 'g' :: 'i' :: 't' :: '@' :: 'g' :: 'i' :: 't' :: 'h' :: 'u' :: 'b' :: x ::
      'c' :: 'o' :: 'm' :: ':' :: rest =>
    if isDotChar x then some rest else none
  | _ => none

/-- `REMOTE.captures(url)`, returning the owner and repo captures.  The
character classes of owner and repo exclude `/` and `.`, so the match
decomposes deterministically at the first slash and the trailing
`.git`. -/
def remoteCaptures (s : String) : Option (String × String) :=
  let cs := s.toList
  let afterPrefix : Option (List Char) :=
    if cs.take 19 = ("https://github.com/").toList then some (cs.drop 19)
    else sshPrefix cs
  match afterPrefix with
  | none => none
  | some rest =>
    let owner := rest.takeWhile (fun c => c ≠ '/')
    match rest.dropWhile (fun c => c ≠ '/') with
    | '/' :: rest2 =>
      if h : 4 ≤ rest2.length then
        if rest2.drop (rest2.length - 4) = (".git").toList then
          let repo := rest2.take (rest2.length - 4)
          if ownerOk owner ∧ repoOk repo then
            some (String.mk owner, String.mk repo)
          else none
        else none
      else none
    | _ => none

inductive BuildError where
  | UrlNotFound
  | CapturesNotFound
  | OwnerNotFound
  | RepoNotFound
  deriving DecidableEq, Repr

/-- `ChangeLogBuilder::get_remote_details`, as a function of the configured
`remote.origin.url` value (absent when the config has no usable value).
The owner and repo groups are unconditional in the pattern, so the
`OwnerNotFound`/`RepoNotFound` paths cannot fire. -/
def getRemoteDetails (url : Option String) : Except BuildError (String × String) :=
  match url with
  | none => .error .UrlNotFound
  | some u =>
    match remoteCaptures u with
    | none => .error .CapturesNotFound
    | some r => .ok r

/-- `ChangeLogBuilder::with_repository`, restricted to the data the claims
inspect: the remote-details step runs first and its error propagates via
`?`, aborting construction; otherwise the version tags are resolved and
the sections walked.  Link accumulation is elided (it consumes the same
owner/repo and windows and adds no further failure path relevant here). -/
def withRepositoryModel (url : Option String) (headings : List String)
    (ds : DisplaySections) (history : List RawCommit)
    (tagNames : List (Nat × String)) (p : String) :
    Except BuildError (List Section) :=
  match getRemoteDetails url with
  | .error e => .error e
  | .ok _ => .ok (buildSections headings ds history (getVersionTags tagNames p))

/-! ## Claims -/

/-- C9: the commit classifier is total — for every input string the parse
returns a classified record (the source's `.unwrap()` on the description
capture can never panic, because the description group participates in
every match of the anchored pattern), and an absent summary yields the
default record: empty title, no kind, no scope, no emoji, breaking =
false. -/
theorem c9_classifier_total :
    (∀ t : String, (ConvCommit.parseChecked t).isSome)
    ∧ (∀ b : Option String,
        (ConvCommit.new none b).title = ""
        ∧ (ConvCommit.new none b).kind = none
        ∧ (ConvCommit.new none b).scope = none
        ∧ (ConvCommit.new none b).emoji = none
        ∧ (ConvCommit.new none b).breaking = false) := by
  refine ⟨fun t => ?_, fun b => ?_⟩
  · unfold ConvCommit.parseChecked conventionalCaptures
    cases hc : convMatchCore t.toList with
    | none => simp
    | some r => simp
  · cases b <;> simp [ConvCommit.new, ConvCommit.empty]

/-- C8: rendering is a pure function of the ChangeLog state — two
changelogs with identical header, sections and links render to
byte-identical markdown (no timestamps, randomness or external state are
consulted by the model of `Display for ChangeLog`). -/
theorem c8_render_deterministic (c₁ c₂ : ChangeLog)
    (hh : c₁.header = c₂.header) (hs : c₁.sections = c₂.sections)
    (hl : c₁.links = c₂.links) : c₁.display = c₂.display := by
  cases c₁
  cases c₂
  simp only at hh hs hl
  simp [ChangeLog.display, hh, hs, hl]

/-- Witness for C8 at a concrete changelog value. -/
theorem c8_render_deterministic_witness :
    ({ header := { title := "Changelog", paragraphs := ["p"] },
       sections := [], links := [] } : ChangeLog).display
      = ({ header := { title := "Changelog", paragraphs := ["p"] },
           sections := [], links := [] } : ChangeLog).display :=
  c8_render_deterministic _ _ rfl rfl rfl

/-- C2 counterexample: building from a repository whose remote URL does not
match the GitHub shape (or is absent) does NOT succeed — `with_repository`
propagates the `get_remote_details` error and aborts, so the claim that
construction still succeeds with links merely skipped is false. -/
theorem c2_counterexample :
    withRepositoryModel (some "https://gitlab.com/user/repo.git")
        ["Added"] .All [] [] "v" = .error .CapturesNotFound
    ∧ withRepositoryModel none ["Added"] .All [] [] "v"
        = .error .UrlNotFound := by
  constructor <;> rfl

/-- C2 amended: when the configured remote URL is missing, changelog
construction fails with `UrlNotFound`; when it does not match the expected
GitHub URL shape, it fails with `CapturesNotFound`.  The error is returned
(no crash), but owner/repo are never left absent with construction
succeeding — the operation aborts instead of degrading. -/
theorem c2_error_propagation :
    (∀ (url : String) (headings : List String) (ds : DisplaySections)
        (history : List RawCommit) (tagNames : List (Nat × String)) (p : String),
      remoteCaptures url = none →
        withRepositoryModel (some url) headings ds history tagNames p
          = .error .CapturesNotFound)
    ∧ (∀ (headings : List String) (ds : DisplaySections)
        (history : List RawCommit) (tagNames : List (Nat × String)) (p : String),
        withRepositoryModel none headings ds history tagNames p
          = .error .UrlNotFound) := by
  refine ⟨fun url headings ds history tagNames p h => ?_, fun headings ds history tagNames p => ?_⟩
  · simp [withRepositoryModel, getRemoteDetails, h]
  · simp [withRepositoryModel, getRemoteDetails]

/-- Witness for C2 at a concrete non-GitHub URL. -/
theorem c2_error_propagation_witness :
    withRepositoryModel (some "https://gitlab.com/user/repo.git")
      [] .All [] [] "v" = .error .CapturesNotFound :=
  c2_error_propagation.1 _ _ _ _ _ _ (by decide)

/-- C4 counterexample: the claim's grammar takes the scope to be a
non-empty run excluding the closing parenthesis, under which
`feat(a)b): x` matches nothing (kind absent); the source pattern's scope
is `.+`, so the classifier accepts it with kind `feat` and the
parenthesis-containing scope `a)b`. -/
theorem c4_counterexample :
    (ConvCommit.new (some "feat(a)b): x") none).kind = some "feat"
    ∧ (ConvCommit.new (some "feat(a)b): x") none).scope = some "a)b"
    ∧ specClassifyKind "feat(a)b): x" = none := by
  refine ⟨?_, ?_, ?_⟩ <;> rfl

/-- C4 amended: the classifier parses summaries against the anchored
grammar `^(emoji\s)?(type)(\(scope\))?(!)?: (description)$` where the
scope is an arbitrary non-empty greedy run that may itself contain `)`
(the pattern backtracks from the rightmost closing parenthesis); a summary
on which the grammar fails is kept verbatim with kind absent.  In
particular `feat(core)!: add x` classifies to kind `feat`, scope `core`,
breaking, title `add x`; `random text` classifies with kind absent and
verbatim title; and `feat(a)b): x` classifies with scope `a)b`. -/
theorem c4_grammar (s : String)
    (h : (ConvCommit.new (some s) none).kind = none) :
    ConvCommit.new (some s) none
        = { title := s, emoji := none, kind := none, scope := none,
            breaking := false, body := "" }
    ∧ ConvCommit.new (some "feat(core)!: add x") none
        = { title := "add x", emoji := none, kind := some "feat",
            scope := some "core", breaking := true, body := "" }
    ∧ ConvCommit.new (some "random text") none
        = { title := "random text", emoji := none, kind := none,
            scope := none, breaking := false, body := "" }
    ∧ (ConvCommit.new (some "feat(a)b): x") none).scope = some "a)b" := by
  refine ⟨?_, by rfl, by rfl, by rfl⟩
  cases hc : convMatchCore s.data with
  | none =>
    simp [ConvCommit.new, ConvCommit.parse, ConvCommit.parseChecked,
      conventionalCaptures, String.toList, hc]
  | some r =>
    simp [ConvCommit.new, ConvCommit.parse, ConvCommit.parseChecked,
      conventionalCaptures, String.toList, hc] at h

/-- Witness for C4 at a concrete non-matching summary. -/
theorem c4_grammar_witness :
    ConvCommit.new (some "random text") none
      = { title := "random text", emoji := none, kind := none,
          scope := none, breaking := false, body := "" } :=
  (c4_grammar "random text" (by rfl)).1

/-- C1 counterexample: a `chore(deps)` commit is NOT resolved to the
Security group — `ChangeLogClass::new` looks only at the kind, so the
commit is classed `Chore` and lands in the chore bucket while the security
bucket stays empty. -/
theorem c1_counterexample :
    (ConvCommit.new (some "chore(deps): update dependencies") none).kind = some "chore"
    ∧ (ConvCommit.new (some "chore(deps): update dependencies") none).scope = some "deps"
    ∧ ((Section.new none ["Added", "Fixed", "Changed", "Security"]).addCommit
        (some "chore(deps): update dependencies") none).securityCommits = []
    ∧ ((Section.new none ["Added", "Fixed", "Changed", "Security"]).addCommit
        (some "chore(deps): update dependencies") none).choreCommits
      = [ConvCommit.new (some "chore(deps): update dependencies") none] := by
  refine ⟨?_, ?_, ?_, ?_⟩ <;> rfl

/-- C1 amended: every classified commit whose kind (lowercased) is
`chore` resolves to the `Chore` class regardless of its scope (the scope,
`deps` included, and the configured kind-to-group table are never
consulted): the commit is appended to the chore bucket and the security
bucket is unchanged. -/
theorem c1_chore_resolution (s : Section) (summary body : Option String)
    (h : asciiLower (ConvCommit.new summary body).kindString = "chore") :
    (s.addCommit summary body).choreCommits
        = s.choreCommits ++ [ConvCommit.new summary body]
    ∧ (s.addCommit summary body).securityCommits = s.securityCommits := by
  have hc : ChangeLogClass.new (ConvCommit.new summary body).kindString = .Chore := by
    unfold ChangeLogClass.new
    rw [h]
    rfl
  simp [Section.addCommit, Section.addCommitToHashmap, hc]

/-- Witness for C1 at a concrete `chore(deps)` commit. -/
theorem c1_chore_resolution_witness :
    ((Section.new none []).addCommit (some "chore(deps): update x") none).choreCommits
        = [ConvCommit.new (some "chore(deps): update x") none]
    ∧ ((Section.new none []).addCommit (some "chore(deps): update x") none).securityCommits
        = [] :=
  c1_chore_resolution (Section.new none []) (some "chore(deps): update x") none (by rfl)

/-- A sample release tag value used by closed statements. -/
def sampleTag : Tag :=
  { id := 0, name := "v1.0.0", package := none,
    semver := some { major := 1, minor := 0, patch := 0, pre := [], build := "" },
    date := none }

set_option maxRecDepth 8192 in
/-- C3: the display-count policy in `with_repository` computes
`min((len + 1) as u8, u8::MAX)`; the cast truncates modulo 256 BEFORE the
`min`, so with 255 release tags and policy `All` the section limit wraps
to 0 and only the Unreleased section is emitted, instead of the 256
sections the spec promises.  With 3 tags the intended `n + 1` count is
produced. -/
theorem c3_display_count_truncation :
    (buildSections [] .All [] (List.replicate 3 sampleTag)).length = 4
    ∧ (buildSections [] .All [] (List.replicate 255 sampleTag)).length = 1
    ∧ sectionLimit .All 255 = 0
    ∧ sectionLimit .All 3 = 4 := by
  refine ⟨?_, ?_, ?_, ?_⟩ <;> rfl

/-- The version 1.0.0, the parse of both `v1.0.0` and `refs/tags/v1.0.0`
under prefix `v`. -/
def vOneOhOh : Version :=
  { major := 1, minor := 0, patch := 0, pre := [], build := "" }

/-- C5 counterexample: two distinct tag names can parse to the very same
version (the unanchored `PREFIX` also accepts `refs/tags/v1.0.0`), so the
release-tag list is NOT strictly descending by SemVer precedence for every
multiset of version-parsing tag names — equal versions sit side by
side. -/
theorem c5_counterexample :
    ((getVersionTags [(0, "v1.0.0"), (1, "refs/tags/v1.0.0")] "v").map Tag.versionD)
        = [vOneOhOh, vOneOhOh]
    ∧ ¬ ((getVersionTags [(0, "v1.0.0"), (1, "refs/tags/v1.0.0")] "v").Pairwise
        (fun a b => precLT b.versionD a.versionD)) := by
  constructor
  · rfl
  · decide

/-- C5 amended: the release-tag list returned by tag resolution is sorted
WEAKLY descending by SemVer precedence (standard SemVer ordering, a
pre-release preceding the corresponding release); ties between
precedence-equal versions are possible.  Every returned tag is a version
tag, and the example tags v1.0.0, v2.0.0, v1.5.0-alpha under prefix `v`
order as 2.0.0, 1.5.0-alpha, 1.0.0. -/
theorem c5_sorted_descending :
    (∀ (tags : List (Nat × String)) (p : String),
      ((getVersionTags tags p).Pairwise (fun a b => precLE b.versionD a.versionD))
      ∧ ∀ t ∈ getVersionTags tags p, t.isVersionTag)
    ∧ ((getVersionTags [(0, "v1.0.0"), (1, "v2.0.0"), (2, "v1.5.0-alpha")] "v").map
        (fun t => t.name)) = ["v2.0.0", "v1.5.0-alpha", "v1.0.0"] := by
  refine ⟨fun tags p => ⟨?_, ?_⟩, by rfl⟩
  · unfold getVersionTags
    rw [List.pairwise_reverse]
    exact List.sorted_insertionSort tagLE _
  · intro t ht
    unfold getVersionTags at ht
    rw [List.mem_reverse] at ht
    have hm := ((List.perm_insertionSort tagLE _).mem_iff).mp ht
    exact List.of_mem_filter hm

/-- C6 spec-side acceptance.  Modelled from the spec: "match name against
`^(prefix)(semver)$`-like grammar; version accepted only if captured
prefix equals `p`" — the anchored reading, in which the whole tag name is
exactly the word-run `p` immediately followed by a full semver text. -/
def specPrefixAccepts (name p : String) : Bool :=
  !(p == "") && p.toList.all isWordChar
    && name.toList.take p.toList.length == p.toList
    && (match semverAt (name.toList.drop p.toList.length) with
        | some sv => sv.length == name.toList.length - p.toList.length
        | none => false)

/-- C6 counterexample: the source `PREFIX` pattern is unanchored, so a tag
name with extra leading content (separated by non-word characters) or
extra trailing content is still accepted — `refs/tags/v1.0.0` and
`v1.0.0x` both resolve to version 1.0.0 under prefix `v`, while the
claim's anchored shape rejects both. -/
theorem c6_counterexample :
    getSemverPrefix "refs/tags/v1.0.0" "v" = some vOneOhOh
    ∧ getSemverPrefix "v1.0.0x" "v" = some vOneOhOh
    ∧ specPrefixAccepts "refs/tags/v1.0.0" "v" = false
    ∧ specPrefixAccepts "v1.0.0x" "v" = false := by
  refine ⟨?_, ?_, ?_, ?_⟩ <;> rfl

/-- Leading characters that are not word characters cannot start a match of
the unanchored `PREFIX` pattern, so the leftmost-first search skips
them. -/
theorem prefixCaptures_append_junk (js : List Char)
    (h : js.all (fun c => isWordChar c = false)) (cs : List Char) :
    prefixCaptures (js ++ cs) = prefixCaptures cs := by
  induction js with
  | nil => rfl
  | cons c rest ih =>
    simp only [List.all_cons, Bool.and_eq_true] at h
    have hc : isWordChar c = false := by
      have := h.1
      simpa using this
    simp only [List.cons_append]
    show prefixCaptures (c :: (rest ++ cs)) = prefixCaptures cs
    rw [show prefixCaptures (c :: (rest ++ cs)) = prefixCaptures (rest ++ cs) from ?_]
    · exact ih (by simpa using h.2)
    · simp [prefixCaptures, List.takeWhile_cons, hc, prefixMatchRev]

/-- C6 amended: under `Prefix(p)` the tag name is searched unanchored and
leftmost-first for `(\w+)(semver)`; the version is accepted iff the
captured prefix equals `p` and the captured text parses.  In particular a
run of non-word characters prepended to a tag name never changes the
outcome (extra leading content is permitted, refuting the anchored
reading). -/
theorem c6_prefix_unanchored (junk name p : String)
    (h : junk.toList.all (fun c => isWordChar c = false)) :
    getSemverPrefix (junk ++ name) p = getSemverPrefix name p := by
  unfold getSemverPrefix
  rw [show (junk ++ name).toList = junk.toList ++ name.toList by
    simp [String.toList, String.data_append]]
  rw [prefixCaptures_append_junk junk.toList h name.toList]

/-- Witness for C6 with a concrete non-word leading run. -/
theorem c6_prefix_unanchored_witness :
    getSemverPrefix ("//" ++ "v1.0.0") "v" = getSemverPrefix "v1.0.0" "v" :=
  c6_prefix_unanchored "//" "v1.0.0" "v" (by decide)

/-! ### Bucket accounting for the partition claim (C7) -/

/-- The contents of a section's twelve group buckets, as one multiset. -/
def Section.bucketsMS (s : Section) : Multiset ConvCommit :=
  ↑s.addedCommits + ↑s.fixedCommits + ↑s.changedCommits + ↑s.securityCommits
    + ↑s.buildCommits + ↑s.testCommits + ↑s.documentationCommits + ↑s.choreCommits
    + ↑s.ciCommits + ↑s.deprecatedCommits + ↑s.removedCommits + ↑s.miscCommits

/-- The classified commits a list of raw commits contributes: exactly one
per summary-bearing commit, none for a summary-less commit. -/
def classifiedMS (l : List RawCommit) : Multiset ConvCommit :=
  ↑(l.filterMap (fun c => if c.1.isSome then some (ConvCommit.new c.1 c.2) else none))

/-- List concatenation as a multiset sum, oriented for splitting. -/
theorem coe_append_split (l₁ l₂ : List ConvCommit) :
    ((l₁ ++ l₂ : List ConvCommit) : Multiset ConvCommit) = ↑l₁ + ↑l₂ :=
  (Multiset.coe_add l₁ l₂).symm

/-- List cons as a multiset sum, oriented for splitting. -/
theorem coe_cons_split (a : ConvCommit) (l : List ConvCommit) :
    ((a :: l : List ConvCommit) : Multiset ConvCommit) = {a} + ↑l := by
  rw [← Multiset.cons_coe, ← Multiset.singleton_add]

/-- Adding one commit grows the buckets by exactly that classified commit:
`add_commit` appends to exactly one bucket. -/
theorem bucketsMS_addCommit (s : Section) (a b : Option String) :
    (s.addCommit a b).bucketsMS = s.bucketsMS + {ConvCommit.new a b} := by
  unfold Section.addCommit
  cases h : ChangeLogClass.new (ConvCommit.new a b).kindString <;>
    simp [Section.bucketsMS, Section.addCommitToHashmap, h, -Multiset.coe_add,
      -Multiset.cons_coe, coe_append_split, coe_cons_split] <;> abel

/-- Walking a raw commit list grows the buckets by exactly its classified
commits. -/
theorem bucketsMS_getCommits (l : List RawCommit) (s : Section) :
    (s.getCommits l).bucketsMS = s.bucketsMS + classifiedMS l := by
  induction l generalizing s with
  | nil => simp [Section.getCommits, classifiedMS]
  | cons c rest ih =>
    have hstep : Section.getCommits s (c :: rest)
        = Section.getCommits (if c.1.isSome then s.addCommit c.1 c.2 else s) rest := rfl
    rw [hstep]
    by_cases hc : c.1.isSome
    · rw [if_pos hc, ih, bucketsMS_addCommit]
      simp [classifiedMS, List.filterMap_cons, hc, -Multiset.coe_add,
        -Multiset.cons_coe, -Multiset.singleton_add, coe_append_split, coe_cons_split]
      abel
    · rw [if_neg hc, ih]
      simp [classifiedMS, List.filterMap_cons, hc]

/-- A section built from a window holds exactly the window's classified
summary-bearing commits. -/
theorem bucketsMS_sectionFromWindow (headings : List String) (tag : Option Tag)
    (history : List RawCommit) (w : List Nat) :
    (sectionFromWindow headings tag history w).bucketsMS
      = classifiedMS (windowCommits history w) := by
  unfold sectionFromWindow
  rw [bucketsMS_getCommits]
  simp [Section.new, Section.bucketsMS]

/-- The release windows are pairwise disjoint and live above the first
walked tag's position, provided the version-descending tags sit at
non-decreasing history positions. -/
theorem releasePlan_flatten_nodup (b : Nat) (tags : List Tag) (n : Nat)
    (hch : List.Chain' (· ≤ ·) (tags.map Tag.id)) :
    (((releasePlan b tags n).map Prod.snd).flatten).Nodup
    ∧ ∀ x ∈ ((releasePlan b tags n).map Prod.snd).flatten,
        (tags.map Tag.id).headD 0 ≤ x := by
  induction b generalizing tags with
  | zero => simp [releasePlan]
  | succ b ih =>
    cases tags with
    | nil => simp [releasePlan]
    | cons t rest =>
      cases rest with
      | nil =>
        have hplan : releasePlan b ([] : List Tag) n = [] := by cases b <;> rfl
        simp only [releasePlan, hplan, List.map_cons, List.map_nil,
          List.flatten_cons, List.flatten_nil, List.append_nil, List.headD_cons]
        refine ⟨by simp [windowToStart, List.nodup_range'], fun x hx => ?_⟩
        rw [windowToStart, List.mem_range'_1] at hx
        exact hx.1
      | cons q rest2 =>
        simp only [List.map_cons] at hch
        rw [List.chain'_cons] at hch
        have ihq := ih (q :: rest2) (by simpa using hch.2)
        simp only [releasePlan, List.map_cons, List.flatten_cons, List.headD_cons]
        constructor
        · refine List.Nodup.append (by simp [windowBetween, List.nodup_range']) ihq.1 ?_
          intro x hxw hxr
          rw [windowBetween, List.mem_range'_1] at hxw
          have hq : q.id ≤ x := by simpa using ihq.2 x hxr
          omega
        · intro x hx
          rw [List.mem_append] at hx
          rcases hx with hxw | hxr
          · rw [windowBetween, List.mem_range'_1] at hxw
            exact hxw.1
          · have hq : q.id ≤ x := by simpa using ihq.2 x hxr
            have ht : t.id ≤ q.id := hch.1
            omega

/-- All windows of the walk are pairwise disjoint under the position
hypothesis: no commit index is visited by two sections. -/
theorem walkPlan_flatten_nodup (ds : DisplaySections) (tags : List Tag) (n : Nat)
    (hch : List.Chain' (· ≤ ·) (tags.map Tag.id)) :
    (((walkPlan ds tags n).map Prod.snd).flatten).Nodup := by
  cases tags with
  | nil => simp [walkPlan, windowAll, List.nodup_range]
  | cons t rest =>
    have hrel := releasePlan_flatten_nodup (sectionLimit ds (t :: rest).length - 1)
      (t :: rest) n hch
    simp only [walkPlan, List.map_cons, List.flatten_cons]
    refine List.Nodup.append ?_ hrel.1 ?_
    · simp [windowHeadTo, List.nodup_range]
    · intro x hxw hxr
      rw [windowHeadTo, List.mem_range] at hxw
      have := hrel.2 x hxr
      simp only [List.map_cons, List.headD_cons] at this
      omega

/-- C7 amended: provided the version-descending release tags sit at
non-decreasing commit positions (newer releases at or nearer HEAD), every
commit visited during the walk that has a summary is placed in exactly one
group bucket of exactly one section: each section's buckets hold exactly
the classified summary-bearing commits of its own window (summary-less
commits contribute nothing and are skipped without error), and no commit
position is visited by two windows. -/
theorem c7_partition (headings : List String) (ds : DisplaySections)
    (history : List RawCommit) (tags : List Tag)
    (hch : List.Chain' (· ≤ ·) (tags.map Tag.id)) :
    (∀ pw ∈ walkPlan ds tags history.length,
      (sectionFromWindow headings pw.1 history pw.2).bucketsMS
        = classifiedMS (windowCommits history pw.2))
    ∧ (((walkPlan ds tags history.length).map Prod.snd).flatten).Nodup :=
  ⟨fun pw _ => bucketsMS_sectionFromWindow headings pw.1 history pw.2,
   walkPlan_flatten_nodup ds tags history.length hch⟩

/-- Witness for C7: a three-commit history with one release tag in
position order. -/
theorem c7_partition_witness :
    (∀ pw ∈ walkPlan DisplaySections.All [sampleTag] 3,
      (sectionFromWindow ["Added"] pw.1
          [(some "feat: a", none), (some "fix: b", none), (none, some "body")] pw.2).bucketsMS
        = classifiedMS (windowCommits
            [(some "feat: a", none), (some "fix: b", none), (none, some "body")] pw.2))
    ∧ (((walkPlan DisplaySections.All [sampleTag] 3).map Prod.snd).flatten).Nodup :=
  c7_partition ["Added"] DisplaySections.All
    [(some "feat: a", none), (some "fix: b", none), (none, some "body")]
    [sampleTag] (by simp)

/-- C7 counterexample: when a higher version is tagged on an older commit
(version order disagreeing with topology), the walk windows overlap and a
commit lands in the buckets of two different sections.  Here version 2.0.0
sits at position 3 and version 1.0.0 at position 1 of a four-commit
history: the Unreleased window is the index range zero to two, the window
from 2.0.0 back to 1.0.0 is empty, and the final window is the range one
to three — the commits `fix: c` and `fix: b` are placed in two
sections. -/
theorem c7_counterexample :
    ((buildSections ["Fixed"] .All
        [(some "fix: d", none), (some "fix: c", none),
         (some "fix: b", none), (some "fix: a", none)]
        [{ id := 3, name := "v2.0.0", package := none,
           semver := some { major := 2, minor := 0, patch := 0, pre := [], build := "" },
           date := none },
         { id := 1, name := "v1.0.0", package := none,
           semver := some { major := 1, minor := 0, patch := 0, pre := [], build := "" },
           date := none }]).map
      (fun s => s.fixedCommits.map (fun c => c.title)))
      = [["d", "c", "b"], [], ["c", "b", "a"]]
    ∧ ¬ (((walkPlan .All
        [{ id := 3, name := "v2.0.0", package := none,
           semver := some { major := 2, minor := 0, patch := 0, pre := [], build := "" },
           date := none },
         { id := 1, name := "v1.0.0", package := none,
           semver := some { major := 1, minor := 0, patch := 0, pre := [], build := "" },
           date := none }] 4).map Prod.snd).flatten).Nodup := by
  constructor
  · rfl
  · decide

/-- C10: commits classed `Build` are rendered under a `"Security"` heading
in both renderers — the display pieces pair the build bucket with the
`"Security"` heading (`"security"` in the lowercase markdown variant), no
piece ever carries a `"Build"` heading, and when the build bucket is
non-empty and the configured headings include `"Security"` the rendered
output contains the build commits under a `### Security` heading. -/
theorem c10_build_renders_as_security (s : Section)
    (hb : s.buildCommits ≠ []) (hh : s.headings.contains "Security" = true) :
    (("Security", s.buildCommits) ∈ s.displayPieces)
    ∧ (∀ p ∈ s.displayPieces, p.1 ≠ "Build")
    ∧ (∀ p ∈ s.markdownPieces, p.1 ≠ "build")
    ∧ (∃ pre post, s.display = pre
        ++ ("### Security\n\n"
            ++ String.join (s.buildCommits.map (fun c => " - " ++ c.titleAsString ++ "\n"))
            ++ "\n") ++ post) := by
  refine ⟨?_, ?_, ?_, ?_⟩
  · simp [Section.displayPieces]
  · intro p hp
    simp only [Section.displayPieces, List.mem_cons, List.not_mem_nil, or_false] at hp
    rcases hp with rfl | rfl | rfl | rfl | rfl | rfl | rfl | rfl | rfl | rfl | rfl | rfl <;>
      simp
  · intro p hp
    simp only [Section.markdownPieces, List.mem_cons, List.not_mem_nil, or_false] at hp
    rcases hp with rfl | rfl | rfl | rfl | rfl | rfl | rfl | rfl | rfl | rfl | rfl | rfl <;>
      simp
  · have hmb : s.commitsMarkdown "Security" s.buildCommits
        = some ("### Security\n\n"
            ++ String.join (s.buildCommits.map (fun c => " - " ++ c.titleAsString ++ "\n"))
            ++ "\n") := by
      have hh2 : "Security" ∈ s.headings := by simpa using hh
      simp [Section.commitsMarkdown, hh2, hb]
    refine ⟨"\n" ++ s.headerLine ++ "\n\n"
        ++ (s.commitsMarkdown "Added" s.addedCommits).getD ""
        ++ (s.commitsMarkdown "Fixed" s.fixedCommits).getD ""
        ++ (s.commitsMarkdown "Changed" s.changedCommits).getD ""
        ++ (s.commitsMarkdown "Security" s.securityCommits).getD "",
      (s.commitsMarkdown "Test" s.testCommits).getD ""
        ++ (s.commitsMarkdown "Documentation" s.documentationCommits).getD ""
        ++ (s.commitsMarkdown "Chore" s.choreCommits).getD ""
        ++ (s.commitsMarkdown "Continuous Integration" s.ciCommits).getD ""
        ++ (s.commitsMarkdown "Deprecated" s.deprecatedCommits).getD ""
        ++ (s.commitsMarkdown "Removed" s.removedCommits).getD ""
        ++ (s.commitsMarkdown "Miscellaneous" s.miscCommits).getD ""
        ++ "\n", ?_⟩
    apply String.ext
    simp [Section.display, Section.displayPieces, String.join, hmb,
      String.data_append, List.append_assoc]

/-- Witness for C10: a section with one build commit and the default
headings. -/
theorem c10_build_renders_as_security_witness :
    (("Security",
        ((Section.new none ["Added", "Fixed", "Changed", "Security"]).addCommit
            (some "build: bump toolchain") none).buildCommits)
      ∈ ((Section.new none ["Added", "Fixed", "Changed", "Security"]).addCommit
            (some "build: bump toolchain") none).displayPieces)
    ∧ (∀ p ∈ ((Section.new none ["Added", "Fixed", "Changed", "Security"]).addCommit
            (some "build: bump toolchain") none).displayPieces, p.1 ≠ "Build")
    ∧ (∀ p ∈ ((Section.new none ["Added", "Fixed", "Changed", "Security"]).addCommit
            (some "build: bump toolchain") none).markdownPieces, p.1 ≠ "build")
    ∧ (∃ pre post,
        ((Section.new none ["Added", "Fixed", "Changed", "Security"]).addCommit
            (some "build: bump toolchain") none).display = pre
          ++ ("### Security\n\n"
              ++ String.join ((((Section.new none ["Added", "Fixed", "Changed", "Security"]).addCommit
                  (some "build: bump toolchain") none).buildCommits).map
                    (fun c => " - " ++ c.titleAsString ++ "\n"))
              ++ "\n") ++ post) :=
  c10_build_renders_as_security _ (by decide) (by decide)

end GenChangelog
